import Mathlib

/-!
Shallow embedding of the real-time chat application
(`typescript-mastery/06-projects/03-chat-application/index.ts`):
the `ChatWebSocketClient` (listeners, emit, reconnect/backoff, disconnect)
and the `MessageService` (message cache, typing presence, event handlers).

JavaScript `Map` is modelled as an insertion-ordered association list
(`Map.set` on an existing key keeps its position, a new key is appended;
`Map.entries()` iterates in insertion order).  JavaScript `Set` of strings
is modelled as an insertion-ordered duplicate-free list (`Set.add` is a
no-op on a present element, `Array.from` yields insertion order).
`setTimeout` is modelled by recording pending timers as
(absolute fire time, arguments) entries; a run of the system interleaves
event handling with firing of due timers.  `Date` timestamps are `Nat`
milliseconds.  Fields of `Message` that no modelled operation reads
(reactions, mentions, attachments, metadata, type) are omitted.
-/

namespace Chat

/-- `interface Message` — the fields the cache logic reads and writes. -/
structure Message where
  id : String
  content : String
  senderId : String
  channelId : String
  timestamp : Nat
  editedAt : Option Nat := none
deriving Repr, DecidableEq

/-- `Omit<Message, 'id' | 'timestamp'>` — the payload of `message:send`:
a locally sent message carries no id (listeners observe it without one). -/
structure OutgoingMessage where
  content : String
  senderId : String
  channelId : String
deriving Repr, DecidableEq

/-! ### Association lists: the `Map` model -/

/-- `Map.get(k)` over an insertion-ordered association list. -/
def alistGet {α : Type} (m : List (String × α)) (k : String) : Option α :=
  match m with
  | [] => none
  | (k', v) :: rest => if k' = k then some v else alistGet rest k

/-- `Map.set(k, v)`: an existing key keeps its position, a new key is
appended at the end (JS `Map` insertion order). -/
def alistSet {α : Type} (m : List (String × α)) (k : String) (v : α) :
    List (String × α) :=
  match m with
  | [] => [(k, v)]
  | (k', v') :: rest =>
    if k' = k then (k, v) :: rest else (k', v') :: alistSet rest k v

/-! ### Duplicate-free lists: the `Set` model -/

/-- `Set.add(u)`: no-op when the element is already present, otherwise
appended at the end. -/
def setAdd {α : Type} [DecidableEq α] (s : List α) (u : α) : List α :=
  if u ∈ s then s else s ++ [u]

/-- `Set.delete(u)`: removes the element (the list is duplicate-free, so
removing every occurrence coincides with removing the one occurrence). -/
def setDelete {α : Type} [DecidableEq α] (s : List α) (u : α) : List α :=
  match s with
  | [] => []
  | x :: rest => if x = u then setDelete rest u else x :: setDelete rest u

/-! ### MessageService state -/

/-- `private messageCache`, `private typingUsers`, plus the pending
`setTimeout(() => removeTypingUser(c, u), 3000)` timers created by
`addTypingUser`, recorded as (absolute fire time, channelId, userId). -/
structure MessageServiceState where
  messageCache : List (String × List Message)
  typingUsers : List (String × List String)
  typingTimers : List (Nat × String × String)
deriving Repr, DecidableEq

/-- Fresh service: both maps start empty. -/
def initialServiceState : MessageServiceState :=
  { messageCache := [], typingUsers := [], typingTimers := [] }

/-- Cache cap: `// Keep only last 100 messages in cache`. -/
def msgCacheCap : Nat := 100

/-- Typing auto-removal delay: `// Auto-remove after 3 seconds`. -/
def typingTimeoutMs : Nat := 3000

/-- `getChannelMessages(channelId)`: `this.messageCache.get(channelId) || []`. -/
def getChannelMessages (s : MessageServiceState) (channelId : String) :
    List Message :=
  (alistGet s.messageCache channelId).getD []

/-- `getTypingUsers(channelId)`: `typingSet ? Array.from(typingSet) : []`. -/
def getTypingUsers (s : MessageServiceState) (channelId : String) :
    List String :=
  match alistGet s.typingUsers channelId with
  | some typingSet => typingSet
  | none => []

/-- The eviction step of `addMessageToCache`:
`if (length > 100) splice(0, length - 100)` — drop the oldest entries,
keeping only the last 100. -/
def capLast (l : List Message) : List Message :=
  if msgCacheCap < l.length then l.drop (l.length - msgCacheCap) else l

/-- `private addMessageToCache(message)`: push onto the channel's list,
then evict down to the last 100. -/
def addMessageToCache (s : MessageServiceState) (message : Message) :
    MessageServiceState :=
  let channelMessages := (alistGet s.messageCache message.channelId).getD []
  let capped := capLast (channelMessages ++ [message])
  { s with messageCache := alistSet s.messageCache message.channelId capped }

/-- Inner step of `updateMessageInCache`: `findIndex(m => m.id === messageId)`
followed by replacing that single entry with
`{ ...messages[i], content, editedAt }` (slice / updated / slice keeps
every other position and the order).  `none` when the id is absent. -/
def updateMessageInChannel (msgs : List Message)
    (messageId content : String) (editTime : Nat) : Option (List Message) :=
  match msgs with
  | [] => none
  | m :: rest =>
    if m.id = messageId then
      some ({ m with content := content, editedAt := some editTime } :: rest)
    else
      (updateMessageInChannel rest messageId content editTime).map (m :: ·)

/-- Outer loop of `updateMessageInCache`: iterate
`this.messageCache.entries()` in insertion order, rewrite the first
channel containing the id and `break`; remaining channels untouched. -/
def updateChannels (cache : List (String × List Message))
    (messageId content : String) (editTime : Nat) :
    List (String × List Message) :=
  match cache with
  | [] => []
  | (cid, msgs) :: rest =>
    match updateMessageInChannel msgs messageId content editTime with
    | some msgs' => (cid, msgs') :: rest
    | none => (cid, msgs) :: updateChannels rest messageId content editTime

/-- `private updateMessageInCache(messageId, updates)` as invoked by the
`message:edit` handler, where `updates = { content, editedAt: new Date() }`. -/
def updateMessageInCache (s : MessageServiceState)
    (messageId content : String) (editTime : Nat) : MessageServiceState :=
  { s with messageCache :=
      updateChannels s.messageCache messageId content editTime }

/-- `private removeMessageFromCache(channelId, messageId)`:
`messages.filter(m => m.id !== messageId)` when the channel exists. -/
def removeMessageFromCache (s : MessageServiceState)
    (channelId messageId : String) : MessageServiceState :=
  match alistGet s.messageCache channelId with
  | some messages =>
    let filtered := messages.filter (fun m => decide (m.id ≠ messageId))
    { s with messageCache := alistSet s.messageCache channelId filtered }
  | none => s

/-- `private addTypingUser(channelId, userId)` at absolute time `now`:
ensure the channel's set exists, add the user, and schedule
`removeTypingUser(channelId, userId)` to fire 3000 ms later.  The
previously scheduled timers are NOT cancelled (the source stores no
timer handle). -/
def addTypingUser (s : MessageServiceState) (now : Nat)
    (channelId userId : String) : MessageServiceState :=
  { s with
    typingUsers := alistSet s.typingUsers channelId
      (setAdd ((alistGet s.typingUsers channelId).getD []) userId),
    typingTimers :=
      s.typingTimers ++ [(now + typingTimeoutMs, channelId, userId)] }

/-- `private removeTypingUser(channelId, userId)`: delete from the
channel's set when it exists. -/
def removeTypingUser (s : MessageServiceState) (channelId userId : String) :
    MessageServiceState :=
  match alistGet s.typingUsers channelId with
  | some typingSet =>
    { s with typingUsers :=
        alistSet s.typingUsers channelId (setDelete typingSet userId) }
  | none => s

/-! ### Events and handlers -/

/-- The websocket events the `MessageService` interacts with
(`setupEventListeners` plus the locally emitted `message:send`). -/
inductive ChatEvent where
  | messageSend (message : OutgoingMessage)
  | messageReceive (message : Message)
  | messageEdit (messageId : String) (content : String)
  | messageDelete (messageId : String) (channelId : String)
  | typingStart (userId : String) (channelId : String)
  | typingStop (userId : String) (channelId : String)
deriving Repr, DecidableEq

/-- `setupEventListeners()`: the service's reaction to one delivered
event, at absolute time `now` (`new Date()` for the edit timestamp).
`message:send` has no registered listener in `MessageService`, so it
leaves the service state unchanged.  The `typing:start` handler guards
`if (userId !== this.currentUserId)`. -/
def handleEvent (currentUserId : String) (now : Nat)
    (s : MessageServiceState) : ChatEvent → MessageServiceState
  | .messageSend _ => s
  | .messageReceive message => addMessageToCache s message
  | .messageEdit messageId content =>
    updateMessageInCache s messageId content now
  | .messageDelete messageId channelId =>
    removeMessageFromCache s channelId messageId
  | .typingStart userId channelId =>
    if userId ≠ currentUserId then addTypingUser s now channelId userId else s
  | .typingStop userId channelId => removeTypingUser s channelId userId

/-- Fire every pending typing timer whose time has come (fire time ≤ `now`),
each invoking `removeTypingUser`; all typing timers share the 3000 ms
delay, so scheduling order coincides with firing order. -/
def fireDueTimers (s : MessageServiceState) (now : Nat) :
    MessageServiceState :=
  let due := s.typingTimers.filter (fun p => decide (p.1 ≤ now))
  let rest := s.typingTimers.filter (fun p => decide (¬ p.1 ≤ now))
  due.foldl (fun st p => removeTypingUser st p.2.1 p.2.2)
    { s with typingTimers := rest }

/-- One step of a timed run: fire the timers due before the event's time,
then handle the event. -/
def stepTimed (currentUserId : String) (s : MessageServiceState)
    (te : Nat × ChatEvent) : MessageServiceState :=
  handleEvent currentUserId te.1 (fireDueTimers s te.1) te.2

/-- Run a time-stamped trace of events from a state. -/
def runEvents (currentUserId : String) (trace : List (Nat × ChatEvent))
    (s : MessageServiceState) : MessageServiceState :=
  trace.foldl (stepTimed currentUserId) s

/-- Observe the typing set of a channel at time `t` after a trace from the
fresh service: timers due by `t` have fired. -/
def observeTyping (currentUserId : String) (trace : List (Nat × ChatEvent))
    (t : Nat) (channelId : String) : List String :=
  getTypingUsers (fireDueTimers (runEvents currentUserId trace
    initialServiceState) t) channelId

/-- A burst of `message:receive` deliveries handled in order (the cache's
only insertion path). -/
def receiveAll (currentUserId : String) (now : Nat)
    (s : MessageServiceState) (ms : List Message) : MessageServiceState :=
  ms.foldl (fun st m => handleEvent currentUserId now st (.messageReceive m)) s

/-- Whether an event addresses the given channel (used to talk about
channels a trace never touches). -/
def eventTouchesChannel (c : String) : ChatEvent → Bool
  | .messageSend _ => false
  | .messageReceive m => decide (m.channelId = c)
  | .messageEdit _ _ => false
  | .messageDelete _ channelId => decide (channelId = c)
  | .typingStart _ channelId => decide (channelId = c)
  | .typingStop _ channelId => decide (channelId = c)

/-- A concrete text message, for instantiating theorems. -/
def mkMessage (id content channelId : String) (timestamp : Nat) : Message :=
  { id := id, content := content, senderId := "alice",
    channelId := channelId, timestamp := timestamp }

/-- A concrete burst of 101 messages to one channel, for instantiating
theorems about the cache cap. -/
def cacheBurst : List Message :=
  (List.range 101).map (fun i => mkMessage (toString i) "hello" "general" i)

/-- A concrete service state with one cached message, for instantiating
theorems about edits. -/
def editDemoState : MessageServiceState :=
  { messageCache := [("general", [mkMessage "m-1" "old" "general" 5])],
    typingUsers := [], typingTimers := [] }

/-! ### ChatWebSocketClient: connection, reconnect with backoff, disconnect -/

/-- `private maxReconnectAttempts = 5`. -/
def maxReconnectAttempts : Nat := 5

/-- `private reconnectDelay = 1000; // Start with 1 second`. -/
def reconnectDelay : Nat := 1000

/-- The client's connection-related fields: `ws` (non-null and open),
`isConnected`, `reconnectAttempts`, `pingInterval` (active or not), and
the pending `setTimeout` delays created by `handleReconnect` (the source
stores NO handle to them, so nothing can clear them). -/
structure ClientState where
  wsOpen : Bool
  isConnected : Bool
  reconnectAttempts : Nat
  pingActive : Bool
  pendingReconnectDelays : List Nat
deriving Repr, DecidableEq

/-- A freshly constructed client. -/
def initialClientState : ClientState :=
  { wsOpen := false, isConnected := false, reconnectAttempts := 0,
    pingActive := false, pendingReconnectDelays := [] }

/-- What one call to `handleReconnect()` does besides updating fields. -/
inductive ReconnectAction where
  | scheduleRetry (delay : Nat)
  | emitMaxAttemptsError
deriving Repr, DecidableEq

/-- `private handleReconnect()`: below the maximum, increment the attempt
counter, compute `delay = reconnectDelay * 2^(attempts - 1)` and schedule
a retry after `delay`; at the maximum, emit the terminal
`MAX_RECONNECT_ATTEMPTS` error and schedule nothing. -/
def handleReconnect (s : ClientState) : ClientState × ReconnectAction :=
  if s.reconnectAttempts < maxReconnectAttempts then
    let attempts := s.reconnectAttempts + 1
    let delay := reconnectDelay * 2 ^ (attempts - 1)
    ({ s with reconnectAttempts := attempts,
              pendingReconnectDelays := s.pendingReconnectDelays ++ [delay] },
     .scheduleRetry delay)
  else
    (s, .emitMaxAttemptsError)

/-- `ws.onopen`: mark connected, reset `reconnectAttempts` to 0, start the
ping heartbeat. -/
def handleOpen (s : ClientState) : ClientState :=
  { s with wsOpen := true, isConnected := true, reconnectAttempts := 0,
           pingActive := true }

/-- `ws.onclose`: mark disconnected and stop the ping; when the close code
is not 1000 (abnormal closure), invoke `handleReconnect`. -/
def handleClose (s : ClientState) (code : Nat) :
    ClientState × Option ReconnectAction :=
  let s := { s with isConnected := false, pingActive := false,
                    wsOpen := false }
  if code ≠ 1000 then
    let (s', a) := handleReconnect s
    (s', some a)
  else
    (s, none)

/-- `disconnect()`: `ws.close(1000)` and `ws = null` when a socket exists,
then `stopPing()`.  The pending reconnect timers are untouched: the
source keeps no handle to the `setTimeout` created in `handleReconnect`,
so nothing clears it. -/
def disconnect (s : ClientState) : ClientState :=
  { s with wsOpen := false, pingActive := false }

/-- One round of the failing-retry loop: the scheduled timer fires, calls
`connect()`, the attempt fails (`.catch(() => this.handleReconnect())`),
so `handleReconnect` runs again.  Simulate `n` such failing rounds after
an initial `handleReconnect`, collecting every scheduled delay and
whether the terminal error was emitted. -/
def simulateFailedRetries : Nat → ClientState → ClientState × List Nat × Bool
  | 0, s => (s, [], false)
  | n + 1, s =>
    match handleReconnect s with
    | (s', .scheduleRetry d) =>
      let (s'', ds, err) := simulateFailedRetries n s'
      (s'', d :: ds, err)
    | (s', .emitMaxAttemptsError) => (s', [], true)

/-! ### Listener registry and `emit` -/

/-- A registered listener: identified by JS function identity (modelled as
a numeric id) together with its behaviour on the payload — either it
returns or it raises an error message. -/
structure Listener (P : Type) where
  id : Nat
  run : P → Except String Unit

/-- The per-event listener `Set`: insertion-ordered, duplicate-free list
of listener ids (`Set.add` is a no-op on a present function). -/
def registryOn (reg : List (String × List Nat)) (event : String)
    (listenerId : Nat) : List (String × List Nat) :=
  alistSet reg event (setAdd ((alistGet reg event).getD []) listenerId)

/-- `off(event, listener)`: when the event has a listener set, delete this
listener from it; the set entry itself stays in the map. -/
def registryOff (reg : List (String × List Nat)) (event : String)
    (listenerId : Nat) : List (String × List Nat) :=
  match alistGet reg event with
  | some eventListeners =>
    alistSet reg event (setDelete eventListeners listenerId)
  | none => reg

/-- What one `emit(event, data)` call produces: whether the payload was
sent on the wire, the ids of the listeners invoked (in invocation order),
and the diagnostics written by `console.error` for listeners that raised.
`emit` returns `void` in the source: this record carries no exception and
no error ever propagates to the caller. -/
structure EmitResult where
  sentOnWire : Bool
  invoked : List Nat
  diagnostics : List (Nat × String)
deriving Repr, DecidableEq

/-- `emit(event, data)`: send on the wire only when the socket is open,
then `forEach` over the event's listeners (Set iteration = registration
order); each listener call is wrapped in `try`/`catch`, a raised error is
logged via `console.error` and the loop continues with the next
listener. -/
def emitStep {P : Type} (data : P) (acc : List Nat × List (Nat × String))
    (l : Listener P) : List Nat × List (Nat × String) :=
  match l.run data with
  | .ok _ => (acc.1 ++ [l.id], acc.2)
  | .error e => (acc.1 ++ [l.id], acc.2 ++ [(l.id, e)])

def emit {P : Type} (wsOpenState : Bool) (eventListeners : List (Listener P))
    (data : P) : EmitResult :=
  let acc := eventListeners.foldl (emitStep data) ([], [])
  { sentOnWire := wsOpenState, invoked := acc.1, diagnostics := acc.2 }

/-- The diagnostics `emit` is expected to report: one entry per raising
listener, in order. -/
def listenerErrors {P : Type} (eventListeners : List (Listener P))
    (data : P) : List (Nat × String) :=
  eventListeners.filterMap (fun l =>
    match l.run data with
    | .ok _ => none
    | .error e => some (l.id, e))

/-! ## Supporting lemmas -/

theorem alistGet_set_self {α : Type} (m : List (String × α)) (k : String)
    (v : α) : alistGet (alistSet m k v) k = some v := by
  induction m with
  | nil => simp [alistSet, alistGet]
  | cons p rest ih =>
    obtain ⟨k', v'⟩ := p
    by_cases h : k' = k <;> simp [alistSet, alistGet, h, ih]

theorem alistGet_set_ne {α : Type} (m : List (String × α)) (k k' : String)
    (v : α) (h : k' ≠ k) : alistGet (alistSet m k v) k' = alistGet m k' := by
  have hk : ¬ k = k' := fun h' => h h'.symm
  induction m with
  | nil => simp [alistSet, alistGet, hk]
  | cons p rest ih =>
    obtain ⟨k₀, v₀⟩ := p
    by_cases h₀ : k₀ = k
    · subst h₀
      simp [alistSet, alistGet, hk]
    · simp only [alistSet, if_neg h₀, alistGet]
      split
      · rfl
      · exact ih

theorem alistSet_set_self {α : Type} (m : List (String × α)) (k : String)
    (v v' : α) : alistSet (alistSet m k v) k v' = alistSet m k v' := by
  induction m with
  | nil => simp [alistSet]
  | cons p rest ih =>
    obtain ⟨k₀, v₀⟩ := p
    by_cases h₀ : k₀ = k <;> simp [alistSet, h₀, ih]

theorem mem_setAdd {α : Type} [DecidableEq α] (s : List α) (u x : α) :
    x ∈ setAdd s u ↔ x ∈ s ∨ x = u := by
  by_cases h : u ∈ s
  · simp only [setAdd, if_pos h]
    constructor
    · exact Or.inl
    · rintro (hx | rfl)
      · exact hx
      · exact h
  · simp [setAdd, if_neg h]

theorem mem_setDelete {α : Type} [DecidableEq α] (s : List α) (u x : α) :
    x ∈ setDelete s u ↔ x ∈ s ∧ x ≠ u := by
  induction s with
  | nil => simp [setDelete]
  | cons y rest ih =>
    by_cases h : y = u
    · subst h
      rw [setDelete, if_pos rfl, ih, List.mem_cons]
      constructor
      · rintro ⟨hx, hne⟩
        exact ⟨Or.inr hx, hne⟩
      · rintro ⟨hx | hx, hne⟩
        · exact absurd hx hne
        · exact ⟨hx, hne⟩
    · rw [setDelete, if_neg h, List.mem_cons, List.mem_cons, ih]
      constructor
      · rintro (rfl | ⟨hx, hne⟩)
        · exact ⟨Or.inl rfl, fun hxu => h hxu⟩
        · exact ⟨Or.inr hx, hne⟩
      · rintro ⟨hx | hx, hne⟩
        · exact Or.inl hx
        · exact Or.inr ⟨hx, hne⟩

theorem setDelete_setDelete {α : Type} [DecidableEq α] (s : List α) (u : α) :
    setDelete (setDelete s u) u = setDelete s u := by
  induction s with
  | nil => rfl
  | cons y rest ih =>
    by_cases h : y = u <;> simp [setDelete, h, ih]

/-! ## C1: the cache keeps exactly the last 100 messages per channel -/

theorem capLast_eq_drop (l : List Message) :
    capLast l = l.drop (l.length - msgCacheCap) := by
  unfold capLast
  split
  · rfl
  · rename_i h
    have : l.length - msgCacheCap = 0 := by omega
    rw [this, List.drop_zero]

theorem drop_congr {α : Type} (l : List α) {i j : Nat} (h : i = j) :
    l.drop i = l.drop j := by rw [h]

theorem capLast_append (x zs : List Message) :
    capLast (capLast x ++ zs) = capLast (x ++ zs) := by
  simp only [capLast_eq_drop, List.drop_append_eq_append_drop,
    List.drop_drop, List.length_drop, List.length_append]
  exact congrArg₂ (· ++ ·) (drop_congr x (by omega)) (drop_congr zs (by omega))

theorem getChannelMessages_receive_self (uid : String) (now : Nat)
    (s : MessageServiceState) (m : Message) :
    getChannelMessages (handleEvent uid now s (.messageReceive m))
      m.channelId = capLast (getChannelMessages s m.channelId ++ [m]) := by
  simp [handleEvent, addMessageToCache, getChannelMessages, alistGet_set_self]

theorem getChannelMessages_receive_ne (uid : String) (now : Nat)
    (s : MessageServiceState) (m : Message) (c : String)
    (h : c ≠ m.channelId) :
    getChannelMessages (handleEvent uid now s (.messageReceive m)) c =
      getChannelMessages s c := by
  simp [handleEvent, addMessageToCache, getChannelMessages,
    alistGet_set_ne _ _ _ _ h]

theorem capLast_length_le (l : List Message) :
    (capLast l).length ≤ msgCacheCap := by
  rw [capLast_eq_drop, List.length_drop]
  unfold msgCacheCap
  omega

theorem capLast_of_le (l : List Message) (h : l.length ≤ msgCacheCap) :
    capLast l = l := by
  unfold capLast
  rw [if_neg (by omega)]

theorem receiveAll_get_aux (uid : String) (now : Nat) (c : String)
    (ms : List Message) (s : MessageServiceState)
    (hall : ∀ m ∈ ms, m.channelId = c)
    (hinv : (getChannelMessages s c).length ≤ msgCacheCap) :
    getChannelMessages (receiveAll uid now s ms) c =
      capLast (getChannelMessages s c ++ ms) := by
  induction ms generalizing s with
  | nil =>
    simp only [receiveAll, List.foldl_nil, List.append_nil]
    rw [capLast_of_le _ hinv]
  | cons m rest ih =>
    have hmc : m.channelId = c := hall m (List.mem_cons_self _ _)
    have hrest : ∀ m' ∈ rest, m'.channelId = c :=
      fun m' hm' => hall m' (List.mem_cons_of_mem _ hm')
    simp only [receiveAll, List.foldl_cons]
    have hself := getChannelMessages_receive_self uid now s m
    rw [hmc] at hself
    have step := ih (handleEvent uid now s (.messageReceive m)) hrest
      (by rw [hself]; exact capLast_length_le _)
    simp only [receiveAll] at step
    rw [step, hself, capLast_append, List.append_assoc]
    rfl

theorem receiveAll_get (uid : String) (now : Nat) (c : String)
    (ms : List Message) (s : MessageServiceState)
    (hall : ∀ m ∈ ms, m.channelId = c) (hms : ms ≠ []) :
    getChannelMessages (receiveAll uid now s ms) c =
      capLast (getChannelMessages s c ++ ms) := by
  match ms with
  | [] => exact absurd rfl hms
  | m :: rest =>
    have hmc : m.channelId = c := hall m (List.mem_cons_self _ _)
    have hrest : ∀ m' ∈ rest, m'.channelId = c :=
      fun m' hm' => hall m' (List.mem_cons_of_mem _ hm')
    simp only [receiveAll, List.foldl_cons]
    have hself := getChannelMessages_receive_self uid now s m
    rw [hmc] at hself
    have step := receiveAll_get_aux uid now c rest
      (handleEvent uid now s (.messageReceive m)) hrest
      (by rw [hself]; exact capLast_length_le _)
    simp only [receiveAll] at step
    rw [step, hself, capLast_append, List.append_assoc]
    rfl

theorem receiveAll_get_main (uid : String) (now : Nat) (c : String)
    (ms : List Message) (s : MessageServiceState)
    (hall : ∀ m ∈ ms, m.channelId = c) (hlen : 100 < ms.length) :
    getChannelMessages (receiveAll uid now s ms) c =
      ms.drop (ms.length - 100) := by
  rw [receiveAll_get uid now c ms s hall
    (by intro h; rw [h] at hlen; simp at hlen)]
  rw [capLast_eq_drop, List.drop_append_eq_append_drop]
  have hcap : msgCacheCap = 100 := rfl
  rw [List.drop_eq_nil_of_le
    (by simp only [List.length_append, hcap]; omega), List.nil_append]
  exact drop_congr ms (by simp only [List.length_append, hcap]; omega)

theorem receiveAll_get_other (uid : String) (now : Nat) (c c' : String)
    (ms : List Message) (s : MessageServiceState)
    (hall : ∀ m ∈ ms, m.channelId = c) (hne : c' ≠ c) :
    getChannelMessages (receiveAll uid now s ms) c' =
      getChannelMessages s c' := by
  induction ms generalizing s with
  | nil => rfl
  | cons m rest ih =>
    have hmc : m.channelId = c := hall m (List.mem_cons_self _ _)
    have hrest : ∀ m' ∈ rest, m'.channelId = c :=
      fun m' hm' => hall m' (List.mem_cons_of_mem _ hm')
    simp only [receiveAll, List.foldl_cons]
    have step := ih (handleEvent uid now s (.messageReceive m)) hrest
    simp only [receiveAll] at step
    rw [step, getChannelMessages_receive_ne]
    rw [hmc]
    exact hne

/-- C1: for every channel and every sequence of more than 100 messages
appended to that channel's cache via `message:receive` handling,
`getChannelMessages(channelId)` returns exactly the last 100 appended
messages in append order, and appending to one channel leaves every other
channel's cached sequence unchanged. -/
theorem C1_cache_keeps_last_100 (uid : String) (now : Nat)
    (s : MessageServiceState) (ms : List Message) (c c' : String)
    (hall : ∀ m ∈ ms, m.channelId = c) (hlen : 100 < ms.length)
    (hne : c' ≠ c) :
    getChannelMessages (receiveAll uid now s ms) c =
      ms.drop (ms.length - 100) ∧
    getChannelMessages (receiveAll uid now s ms) c' =
      getChannelMessages s c' :=
  ⟨receiveAll_get_main uid now c ms s hall hlen,
   receiveAll_get_other uid now c c' ms s hall hne⟩

theorem C1_cache_keeps_last_100_witness :
    (∀ m ∈ cacheBurst, m.channelId = "general") ∧
    100 < cacheBurst.length ∧
    "lobby" ≠ "general" ∧
    (getChannelMessages (receiveAll "me" 0 initialServiceState cacheBurst)
        "general" = cacheBurst.drop (cacheBurst.length - 100) ∧
     getChannelMessages (receiveAll "me" 0 initialServiceState cacheBurst)
        "lobby" = getChannelMessages initialServiceState "lobby") := by
  have h1 : ∀ m ∈ cacheBurst, m.channelId = "general" := by
    intro m hm
    simp only [cacheBurst, List.mem_map] at hm
    obtain ⟨i, _, rfl⟩ := hm
    rfl
  have h2 : 100 < cacheBurst.length := by
    simp [cacheBurst]
  have h3 : "lobby" ≠ "general" := by decide
  exact ⟨h1, h2, h3,
    C1_cache_keeps_last_100 "me" 0 initialServiceState cacheBurst
      "general" "lobby" h1 h2 h3⟩

/-- C2 counterexample: `typing:start` for ("general", "alice") at t=0 and
again at t=2000 (within 3 s).  The claim says the expiry timer is
restarted, so the user stays in `getTypingUsers` until t=5000; but the
first start's timer is never cancelled and removes the user at t=3000:
at t=4000 the user is already gone (while still present at t=2500). -/
theorem C2_counterexample_no_refresh :
    observeTyping "me"
      [(0, .typingStart "alice" "general"), (2000, .typingStart "alice" "general")]
      2500 "general" = ["alice"] ∧
    "alice" ∉ observeTyping "me"
      [(0, .typingStart "alice" "general"), (2000, .typingStart "alice" "general")]
      4000 "general" := by
  decide

/-- C2 amended: a second `typing:start` within 3 s does NOT restart the
expiry timer — `addTypingUser` schedules an additional timeout and never
cancels the first, so the earliest timer removes the user 3 s after the
FIRST start: for the two-start trace (starts at t=0 and t=2000), the user
is absent at every observation time T ≥ 3000. -/
theorem C2_amended_first_timer_removes (T : Nat) (hT : 3000 ≤ T) :
    observeTyping "me"
      [(0, .typingStart "alice" "general"), (2000, .typingStart "alice" "general")]
      T "general" = [] := by
  have hrun : runEvents "me"
      [(0, .typingStart "alice" "general"), (2000, .typingStart "alice" "general")]
      initialServiceState =
      { messageCache := [], typingUsers := [("general", ["alice"])],
        typingTimers := [(3000, "general", "alice"), (5000, "general", "alice")] } := by
    decide
  unfold observeTyping
  rw [hrun]
  by_cases h5 : 5000 ≤ T
  · unfold fireDueTimers
    simp only [List.filter_cons, List.filter_nil, decide_eq_true_eq, hT, h5,
      if_true, decide_True, decide_False, if_false, not_true, List.foldl_cons,
      List.foldl_nil]
    decide
  · unfold fireDueTimers
    simp only [List.filter_cons, List.filter_nil, decide_eq_true_eq, hT, h5,
      if_true, decide_True, decide_False, if_false, not_false_iff, not_true,
      List.foldl_cons, List.foldl_nil]
    decide

theorem C2_amended_first_timer_removes_witness :
    3000 ≤ 4000 ∧
    observeTyping "me"
      [(0, .typingStart "alice" "general"), (2000, .typingStart "alice" "general")]
      4000 "general" = [] :=
  ⟨by decide, C2_amended_first_timer_removes 4000 (by decide)⟩

/-- C3 counterexample: connect successfully, then suffer an abnormal close
(code 1006), which schedules a reconnect timer; calling `disconnect()`
while that reconnect is pending does NOT cancel it — the client still has
an outstanding reconnect timer after `disconnect()` returns (the source
stores no handle to the `setTimeout`, so nothing can clear it, and the
timer's callback will call `connect()`). -/
theorem C3_counterexample_timer_survives :
    (disconnect ((handleClose (handleOpen initialClientState) 1006).1)).pendingReconnectDelays
      ≠ [] := by
  decide

/-- C3 amended: `disconnect()` closes the socket and stops the heartbeat,
but leaves every pending reconnect timer outstanding (it cancels
nothing), from any state. -/
theorem C3_amended_disconnect_keeps_timers (s : ClientState) :
    (disconnect s).pendingReconnectDelays = s.pendingReconnectDelays ∧
    (disconnect s).wsOpen = false ∧
    (disconnect s).pingActive = false :=
  ⟨rfl, rfl, rfl⟩

/-- C5: starting from a fresh client, each failed reconnect round schedules
a retry after `1000 * 2^(attempt-1)` ms — delays 1 s, 2 s, 4 s, 8 s, 16 s —
incrementing the attempt counter up to 5; the round after the 5th failure
surfaces the terminal `MAX_RECONNECT_ATTEMPTS` error and schedules no
further retry, and a successful reconnect (`onopen`) resets the attempt
counter to 0. -/
theorem C5_exponential_backoff :
    (simulateFailedRetries 6 initialClientState).2.1 =
      [1000, 2000, 4000, 8000, 16000] ∧
    (simulateFailedRetries 6 initialClientState).2.2 = true ∧
    (simulateFailedRetries 6 initialClientState).1.reconnectAttempts = 5 ∧
    (∀ s : ClientState, (handleOpen s).reconnectAttempts = 0) :=
  ⟨by decide, by decide, by decide, fun _ => rfl⟩

theorem emit_foldl {P : Type} (p : P) (ls : List (Listener P))
    (inv : List Nat) (diag : List (Nat × String)) :
    ls.foldl (emitStep p) (inv, diag) =
      (inv ++ ls.map Listener.id, diag ++ listenerErrors ls p) := by
  induction ls generalizing inv diag with
  | nil => simp [listenerErrors]
  | cons l rest ih =>
    simp only [List.foldl_cons, List.map_cons]
    cases h : l.run p with
    | ok u =>
      rw [show emitStep p (inv, diag) l = (inv ++ [l.id], diag) by
        simp [emitStep, h]]
      rw [ih]
      simp only [listenerErrors, List.filterMap_cons, h, List.append_assoc,
        List.singleton_append]
    | error e =>
      rw [show emitStep p (inv, diag) l = (inv ++ [l.id], diag ++ [(l.id, e)]) by
        simp [emitStep, h]]
      rw [ih]
      simp only [listenerErrors, List.filterMap_cons, h, List.append_assoc,
        List.singleton_append]

/-- C6: `emit` invokes every currently registered listener for the event,
in registration order, as part of the call itself (the invocation record
is produced by `emit` before it returns) and independently of transport
connectivity; a raising listener does not prevent the remaining listeners
from running, its error lands in the diagnostics (the `console.error`
channel) in order, and `emit` is a total function into `EmitResult` — it
returns normally, never re-throwing a listener's error to its caller. -/
theorem C6_emit_invokes_all_listeners {P : Type} (ws ws' : Bool)
    (ls : List (Listener P)) (p : P) :
    (emit ws ls p).invoked = ls.map Listener.id ∧
    (emit ws ls p).diagnostics = listenerErrors ls p ∧
    (emit ws ls p).invoked = (emit ws' ls p).invoked ∧
    (emit ws ls p).sentOnWire = ws := by
  have h := emit_foldl p ls [] []
  refine ⟨?_, ?_, ?_, rfl⟩
  · simp [emit, h]
  · simp [emit, h]
  · simp [emit, h]

/-- C7: the unsubscribe capability returned by `on(event, listener)` is
`() => this.off(event, listener)`; invoking it removes exactly that
listener from that event's set — every other listener of the event keeps
its registration, every other event name's set is untouched — and
invoking it repeatedly equals invoking it once. -/
theorem registryOff_of_none (reg : List (String × List Nat)) (ev : String)
    (lid : Nat) (h : alistGet reg ev = none) :
    registryOff reg ev lid = reg := by
  unfold registryOff
  rw [h]

theorem registryOff_of_some (reg : List (String × List Nat)) (ev : String)
    (lid : Nat) (l : List Nat) (h : alistGet reg ev = some l) :
    registryOff reg ev lid = alistSet reg ev (setDelete l lid) := by
  unfold registryOff
  rw [h]

theorem C7_unsubscribe_removes_exactly (reg : List (String × List Nat))
    (ev ev' : String) (lid lid' : Nat) :
    lid ∉ (alistGet (registryOff reg ev lid) ev).getD [] ∧
    (lid' ≠ lid →
      (lid' ∈ (alistGet (registryOff reg ev lid) ev).getD [] ↔
       lid' ∈ (alistGet reg ev).getD [])) ∧
    (ev' ≠ ev →
      alistGet (registryOff reg ev lid) ev' = alistGet reg ev') ∧
    registryOff (registryOff reg ev lid) ev lid = registryOff reg ev lid := by
  cases hget : alistGet reg ev with
  | none =>
    rw [registryOff_of_none reg ev lid hget]
    exact ⟨by simp [hget], fun _ => by rw [hget], fun _ => rfl,
      registryOff_of_none reg ev lid hget⟩
  | some eventListeners =>
    rw [registryOff_of_some reg ev lid eventListeners hget]
    refine ⟨?_, ?_, ?_, ?_⟩
    · rw [alistGet_set_self]
      simp only [Option.getD_some]
      intro hmem
      exact ((mem_setDelete _ _ _).mp hmem).2 rfl
    · intro hne
      rw [alistGet_set_self]
      simp only [Option.getD_some]
      rw [mem_setDelete]
      exact ⟨fun h => h.1, fun h => ⟨h, hne⟩⟩
    · intro hne
      exact alistGet_set_ne _ _ _ _ hne
    · rw [registryOff_of_some _ ev lid (setDelete eventListeners lid)
        (alistGet_set_self _ _ _), setDelete_setDelete, alistSet_set_self]

theorem C7_unsubscribe_removes_exactly_witness :
    (2 : Nat) ≠ 1 ∧ "message:receive" ≠ "typing:start" ∧
    (1 ∉ (alistGet (registryOff
        (registryOn (registryOn [] "typing:start" 1) "typing:start" 2)
        "typing:start" 1) "typing:start").getD [] ∧
     (2 ∈ (alistGet (registryOff
        (registryOn (registryOn [] "typing:start" 1) "typing:start" 2)
        "typing:start" 1) "typing:start").getD [] ↔
      2 ∈ (alistGet
        (registryOn (registryOn [] "typing:start" 1) "typing:start" 2)
        "typing:start").getD []) ∧
     alistGet (registryOff
        (registryOn (registryOn [] "typing:start" 1) "typing:start" 2)
        "typing:start" 1) "message:receive" =
      alistGet
        (registryOn (registryOn [] "typing:start" 1) "typing:start" 2)
        "message:receive" ∧
     registryOff (registryOff
        (registryOn (registryOn [] "typing:start" 1) "typing:start" 2)
        "typing:start" 1) "typing:start" 1 =
      registryOff
        (registryOn (registryOn [] "typing:start" 1) "typing:start" 2)
        "typing:start" 1) := by
  have h := C7_unsubscribe_removes_exactly
    (registryOn (registryOn [] "typing:start" 1) "typing:start" 2)
    "typing:start" "message:receive" 1 2
  exact ⟨by decide, by decide,
    h.1, h.2.1 (by decide), h.2.2.1 (by decide), h.2.2.2⟩

/-! ## C8: the typing-presence set never contains the local user -/

theorem mem_getTypingUsers_removeTypingUser (s : MessageServiceState)
    (c' u' c : String) (x : String)
    (h : x ∈ getTypingUsers (removeTypingUser s c' u') c) :
    x ∈ getTypingUsers s c := by
  unfold removeTypingUser at h
  cases hget : alistGet s.typingUsers c' with
  | none => rw [hget] at h; exact h
  | some typingSet =>
    rw [hget] at h
    by_cases hc : c = c'
    · subst hc
      unfold getTypingUsers at h ⊢
      rw [show alistGet
          (alistSet s.typingUsers c (setDelete typingSet u')) c =
          some (setDelete typingSet u') from alistGet_set_self _ _ _] at h
      rw [hget]
      exact ((mem_setDelete _ _ _).mp h).1
    · unfold getTypingUsers at h ⊢
      rw [show alistGet
          (alistSet s.typingUsers c' (setDelete typingSet u')) c =
          alistGet s.typingUsers c from alistGet_set_ne _ _ _ _ hc] at h
      exact h

theorem mem_getTypingUsers_addTypingUser (s : MessageServiceState)
    (now : Nat) (c' u c : String) (x : String)
    (h : x ∈ getTypingUsers (addTypingUser s now c' u) c) :
    x ∈ getTypingUsers s c ∨ x = u := by
  unfold addTypingUser at h
  by_cases hc : c = c'
  · subst hc
    unfold getTypingUsers at h ⊢
    rw [show alistGet (alistSet s.typingUsers c
        (setAdd ((alistGet s.typingUsers c).getD []) u)) c =
        some (setAdd ((alistGet s.typingUsers c).getD []) u) from
      alistGet_set_self _ _ _] at h
    rcases (mem_setAdd _ _ _).mp h with hx | hx
    · left
      cases hget : alistGet s.typingUsers c with
      | none => rw [hget] at hx; simp at hx
      | some typingSet => rw [hget] at hx; exact hx
    · right; exact hx
  · unfold getTypingUsers at h ⊢
    rw [show alistGet (alistSet s.typingUsers c'
        (setAdd ((alistGet s.typingUsers c').getD []) u)) c =
        alistGet s.typingUsers c from alistGet_set_ne _ _ _ _ hc] at h
    left
    exact h

theorem getTypingUsers_removeMessageFromCache (s : MessageServiceState)
    (cid mid c : String) :
    getTypingUsers (removeMessageFromCache s cid mid) c =
      getTypingUsers s c := by
  unfold removeMessageFromCache
  cases alistGet s.messageCache cid <;> rfl

theorem handleEvent_no_self_typing (uid : String) (now : Nat)
    (s : MessageServiceState) (e : ChatEvent)
    (hinv : ∀ c, uid ∉ getTypingUsers s c) :
    ∀ c, uid ∉ getTypingUsers (handleEvent uid now s e) c := by
  cases e with
  | messageSend om => exact hinv
  | messageReceive m => exact hinv
  | messageEdit mid content => exact hinv
  | messageDelete mid cid =>
    intro c
    show uid ∉ getTypingUsers (removeMessageFromCache s cid mid) c
    rw [getTypingUsers_removeMessageFromCache]
    exact hinv c
  | typingStart u cid =>
    intro c hmem
    have hmem' : uid ∈ getTypingUsers
        (if u ≠ uid then addTypingUser s now cid u else s) c := hmem
    by_cases hu : u ≠ uid
    · rw [if_pos hu] at hmem'
      rcases mem_getTypingUsers_addTypingUser s now cid u c uid hmem' with
        hx | hx
      · exact hinv c hx
      · exact hu hx.symm
    · rw [if_neg hu] at hmem'
      exact hinv c hmem'
  | typingStop u cid =>
    intro c hmem
    exact hinv c (mem_getTypingUsers_removeTypingUser s cid u c uid hmem)

theorem foldl_removeTypingUser_no_self (uid : String)
    (l : List (Nat × String × String)) (s : MessageServiceState)
    (hinv : ∀ c, uid ∉ getTypingUsers s c) :
    ∀ c, uid ∉ getTypingUsers
      (l.foldl (fun st p => removeTypingUser st p.2.1 p.2.2) s) c := by
  induction l generalizing s with
  | nil => exact hinv
  | cons p rest ih =>
    simp only [List.foldl_cons]
    refine ih (removeTypingUser s p.2.1 p.2.2) ?_
    intro c hmem
    exact hinv c (mem_getTypingUsers_removeTypingUser s p.2.1 p.2.2 c uid hmem)

theorem fireDueTimers_no_self (uid : String) (s : MessageServiceState)
    (t : Nat) (hinv : ∀ c, uid ∉ getTypingUsers s c) :
    ∀ c, uid ∉ getTypingUsers (fireDueTimers s t) c := by
  unfold fireDueTimers
  exact foldl_removeTypingUser_no_self uid _ _ hinv

theorem runEvents_no_self (uid : String) (trace : List (Nat × ChatEvent))
    (s : MessageServiceState) (hinv : ∀ c, uid ∉ getTypingUsers s c) :
    ∀ c, uid ∉ getTypingUsers (runEvents uid trace s) c := by
  induction trace generalizing s with
  | nil => exact hinv
  | cons te rest ih =>
    simp only [runEvents, List.foldl_cons]
    have h1 := fireDueTimers_no_self uid s te.1 hinv
    have h2 := handleEvent_no_self_typing uid te.1 (fireDueTimers s te.1)
      te.2 h1
    exact ih (stepTimed uid s te) h2

/-- C8: the local user's own id never appears in any channel's
typing-presence set.  A `typing:start` whose `userId` equals the current
user's id leaves the service state unchanged, and along any timed trace
of events from a fresh service — timers included — `getTypingUsers` never
contains the local user. -/
theorem C8_no_self_in_typing_set (uid : String)
    (trace : List (Nat × ChatEvent)) (T : Nat) (c : String) :
    (∀ (s : MessageServiceState) (now : Nat) (c' : String),
      handleEvent uid now s (.typingStart uid c') = s) ∧
    uid ∉ observeTyping uid trace T c := by
  constructor
  · intro s now c'
    simp [handleEvent]
  · have hinit : ∀ c₀, uid ∉ getTypingUsers initialServiceState c₀ := by
      intro c₀
      simp [initialServiceState, getTypingUsers, alistGet]
    exact fireDueTimers_no_self uid _ T
      (runEvents_no_self uid trace _ hinit) c

/-! ## C9: `message:edit` replaces in place; missing id is a no-op -/

theorem updateMessageInChannel_map_id (msgs : List Message)
    (mid ct : String) (t : Nat) (msgs' : List Message)
    (h : updateMessageInChannel msgs mid ct t = some msgs') :
    msgs'.map Message.id = msgs.map Message.id := by
  induction msgs generalizing msgs' with
  | nil => unfold updateMessageInChannel at h; simp at h
  | cons m rest ih =>
    unfold updateMessageInChannel at h
    by_cases hid : m.id = mid
    · rw [if_pos hid] at h
      cases h
      simp
    · rw [if_neg hid] at h
      cases hrec : updateMessageInChannel rest mid ct t with
      | none => rw [hrec] at h; simp at h
      | some rest' =>
        rw [hrec] at h
        simp only [Option.map_some'] at h
        cases h
        simp only [List.map_cons]
        rw [ih rest' hrec]

theorem updateMessageInChannel_eq_none_iff (msgs : List Message)
    (mid ct : String) (t : Nat) :
    updateMessageInChannel msgs mid ct t = none ↔
      ∀ m ∈ msgs, m.id ≠ mid := by
  induction msgs with
  | nil => simp [updateMessageInChannel]
  | cons m rest ih =>
    unfold updateMessageInChannel
    by_cases hid : m.id = mid
    · rw [if_pos hid]
      simp only [List.mem_cons]
      constructor
      · intro h; simp at h
      · intro h
        exact absurd hid (h m (Or.inl rfl))
    · rw [if_neg hid]
      simp only [List.mem_cons, Option.map_eq_none', ih]
      constructor
      · rintro h m' (rfl | hm')
        · exact hid
        · exact h m' hm'
      · intro h m' hm'
        exact h m' (Or.inr hm')

theorem updateMessageInChannel_some_mem (msgs : List Message)
    (mid ct : String) (t : Nat) (msgs' : List Message)
    (h : updateMessageInChannel msgs mid ct t = some msgs') :
    ∃ m' ∈ msgs', m'.id = mid ∧ m'.content = ct ∧ m'.editedAt = some t := by
  induction msgs generalizing msgs' with
  | nil => unfold updateMessageInChannel at h; simp at h
  | cons m rest ih =>
    unfold updateMessageInChannel at h
    by_cases hid : m.id = mid
    · rw [if_pos hid] at h
      cases h
      exact ⟨_, List.mem_cons_self _ _, hid, rfl, rfl⟩
    · rw [if_neg hid] at h
      cases hrec : updateMessageInChannel rest mid ct t with
      | none => rw [hrec] at h; simp at h
      | some rest' =>
        rw [hrec] at h
        simp only [Option.map_some'] at h
        cases h
        obtain ⟨m', hm', hprops⟩ := ih rest' hrec
        exact ⟨m', List.mem_cons_of_mem _ hm', hprops⟩

theorem updateChannels_keys (cache : List (String × List Message))
    (mid ct : String) (t : Nat) :
    (updateChannels cache mid ct t).map Prod.fst = cache.map Prod.fst := by
  induction cache with
  | nil => rfl
  | cons p rest ih =>
    obtain ⟨cid, msgs⟩ := p
    unfold updateChannels
    cases updateMessageInChannel msgs mid ct t with
    | some msgs' => simp
    | none => simp [ih]

theorem alistGet_updateChannels (cache : List (String × List Message))
    (mid ct : String) (t : Nat) (c : String) :
    alistGet (updateChannels cache mid ct t) c = alistGet cache c ∨
    ∃ msgs msgs', alistGet cache c = some msgs ∧
      alistGet (updateChannels cache mid ct t) c = some msgs' ∧
      updateMessageInChannel msgs mid ct t = some msgs' := by
  induction cache with
  | nil => left; rfl
  | cons p rest ih =>
    obtain ⟨cid, msgs⟩ := p
    unfold updateChannels
    cases hin : updateMessageInChannel msgs mid ct t with
    | some msgs' =>
      by_cases hc : cid = c
      · subst hc
        right
        exact ⟨msgs, msgs', by simp [alistGet], by simp [alistGet], hin⟩
      · left
        simp [alistGet, hc]
    | none =>
      by_cases hc : cid = c
      · subst hc
        left
        simp [alistGet]
      · rcases ih with h | ⟨msgs₀, msgs₀', h1, h2, h3⟩
        · left
          simp [alistGet, hc, h]
        · right
          exact ⟨msgs₀, msgs₀', by simp [alistGet, hc, h1],
            by simp [alistGet, hc, h2], h3⟩

theorem alistGet_some_mem_keys {α : Type} (m : List (String × α))
    (c : String) (v : α) (h : alistGet m c = some v) :
    c ∈ m.map Prod.fst := by
  induction m with
  | nil => simp [alistGet] at h
  | cons p rest ih =>
    unfold alistGet at h
    by_cases hc : p.1 = c
    · simp [hc]
    · rw [if_neg hc] at h
      simp only [List.map_cons, List.mem_cons]
      exact Or.inr (ih h)

theorem alistGet_of_mem_nodup {α : Type} (m : List (String × α))
    (p : String × α) (hnd : (m.map Prod.fst).Nodup) (hp : p ∈ m) :
    alistGet m p.1 = some p.2 := by
  induction m with
  | nil => simp at hp
  | cons q rest ih =>
    simp only [List.map_cons, List.nodup_cons] at hnd
    rcases List.mem_cons.mp hp with rfl | hp'
    · simp [alistGet]
    · have hne : q.1 ≠ p.1 := by
        intro heq
        exact hnd.1 (heq ▸ List.mem_map_of_mem Prod.fst hp')
      unfold alistGet
      rw [if_neg hne]
      exact ih hnd.2 hp'

theorem updateChannels_of_miss (cache : List (String × List Message))
    (mid ct : String) (t : Nat)
    (h : ∀ p ∈ cache, ∀ m ∈ p.2, m.id ≠ mid) :
    updateChannels cache mid ct t = cache := by
  induction cache with
  | nil => rfl
  | cons p rest ih =>
    obtain ⟨cid, msgs⟩ := p
    unfold updateChannels
    rw [(updateMessageInChannel_eq_none_iff msgs mid ct t).mpr
      (h (cid, msgs) (List.mem_cons_self _ _))]
    rw [ih (fun p' hp' => h p' (List.mem_cons_of_mem _ hp'))]

theorem updateChannels_hit (cache : List (String × List Message))
    (mid ct : String) (t : Nat) (hnd : (cache.map Prod.fst).Nodup)
    (h : ∃ c, ∃ m ∈ (alistGet cache c).getD [], m.id = mid) :
    ∃ c' msgs', alistGet (updateChannels cache mid ct t) c' = some msgs' ∧
      ∃ m' ∈ msgs', m'.id = mid ∧ m'.content = ct ∧
        m'.editedAt = some t := by
  induction cache with
  | nil =>
    obtain ⟨c, m, hm, _⟩ := h
    simp [alistGet] at hm
  | cons p rest ih =>
    obtain ⟨cid, msgs⟩ := p
    simp only [List.map_cons, List.nodup_cons] at hnd
    unfold updateChannels
    cases hin : updateMessageInChannel msgs mid ct t with
    | some msgs' =>
      refine ⟨cid, msgs', by simp [alistGet], ?_⟩
      exact updateMessageInChannel_some_mem msgs mid ct t msgs' hin
    | none =>
      have hrest : ∃ c, ∃ m ∈ (alistGet rest c).getD [], m.id = mid := by
        obtain ⟨c, m, hm, hmid⟩ := h
        by_cases hc : cid = c
        · subst hc
          rw [show alistGet ((cid, msgs) :: rest) cid = some msgs by
            simp [alistGet]] at hm
          simp only [Option.getD_some] at hm
          exact absurd hmid
            ((updateMessageInChannel_eq_none_iff msgs mid ct t).mp hin m hm)
        · rw [show alistGet ((cid, msgs) :: rest) c = alistGet rest c by
            simp [alistGet, hc]] at hm
          exact ⟨c, m, hm, hmid⟩
      obtain ⟨c', msgs', hget, hex⟩ := ih hnd.2 hrest
      have hc' : cid ≠ c' := by
        intro heq
        apply hnd.1
        rw [← updateChannels_keys rest mid ct t, heq]
        exact alistGet_some_mem_keys _ _ _ hget
      refine ⟨c', msgs', ?_, hex⟩
      simp [alistGet, hc', hget]

theorem mem_alistGet_singleton {α : Type} (k c : String) (v : List α)
    (m : α) (hm : m ∈ (alistGet [(k, v)] c).getD []) : m ∈ v := by
  by_cases h : k = c
  · rw [show alistGet [(k, v)] c = some v by simp [alistGet, h]] at hm
    exact hm
  · rw [show alistGet [(k, v)] c = none by simp [alistGet, h]] at hm
    simp at hm

/-- C9: handling `message:edit` for an id present in the cache replaces
that message in place with the new content and a non-null `editedAt`,
keeping every channel's size and message order (the id sequence) intact;
handling it for an id present in no channel leaves the whole service
state unchanged and surfaces no error.  (A JS `Map` has unique keys,
hence the no-duplicate-keys hypothesis on the state.) -/
theorem C9_edit_replaces_or_noop (uid : String) (now : Nat)
    (s : MessageServiceState) (mid content : String)
    (hnd : (s.messageCache.map Prod.fst).Nodup) :
    (∀ c, (getChannelMessages
        (handleEvent uid now s (.messageEdit mid content)) c).map Message.id
      = (getChannelMessages s c).map Message.id) ∧
    (∀ c, (getChannelMessages
        (handleEvent uid now s (.messageEdit mid content)) c).length
      = (getChannelMessages s c).length) ∧
    ((∃ c, ∃ m ∈ getChannelMessages s c, m.id = mid) →
      ∃ c', ∃ m' ∈ getChannelMessages
          (handleEvent uid now s (.messageEdit mid content)) c',
        m'.id = mid ∧ m'.content = content ∧ m'.editedAt = some now) ∧
    ((∀ c, ∀ m ∈ getChannelMessages s c, m.id ≠ mid) →
      handleEvent uid now s (.messageEdit mid content) = s) := by
  have hids : ∀ c, (getChannelMessages
      (handleEvent uid now s (.messageEdit mid content)) c).map Message.id
      = (getChannelMessages s c).map Message.id := by
    intro c
    show ((alistGet (updateChannels s.messageCache mid content now) c).getD
        []).map Message.id = ((alistGet s.messageCache c).getD []).map
        Message.id
    rcases alistGet_updateChannels s.messageCache mid content now c with
      h | ⟨msgs, msgs', h1, h2, h3⟩
    · rw [h]
    · rw [h1, h2]
      simp only [Option.getD_some]
      exact updateMessageInChannel_map_id msgs mid content now msgs' h3
  refine ⟨hids, ?_, ?_, ?_⟩
  · intro c
    rw [← List.length_map
      (getChannelMessages (handleEvent uid now s (.messageEdit mid content)) c)
      Message.id, hids c, List.length_map]
  · rintro ⟨c, m, hm, hmid⟩
    obtain ⟨c', msgs', hget, m', hm', hprops⟩ :=
      updateChannels_hit s.messageCache mid content now hnd ⟨c, m, hm, hmid⟩
    refine ⟨c', m', ?_, hprops⟩
    show m' ∈ (alistGet (updateChannels s.messageCache mid content now)
      c').getD []
    rw [hget]
    exact hm'
  · intro h
    have hentry : ∀ p ∈ s.messageCache, ∀ m ∈ p.2, m.id ≠ mid := by
      intro p hp m hm
      have hget := alistGet_of_mem_nodup s.messageCache p hnd hp
      refine h p.1 m ?_
      show m ∈ (alistGet s.messageCache p.1).getD []
      rw [hget]
      exact hm
    show updateMessageInCache s mid content now = s
    unfold updateMessageInCache
    rw [updateChannels_of_miss s.messageCache mid content now hentry]

theorem C9_edit_replaces_or_noop_witness :
    ((editDemoState.messageCache.map Prod.fst).Nodup) ∧
    ((∀ c, (getChannelMessages
        (handleEvent "me" 7 editDemoState (.messageEdit "m-1" "new"))
        c).map Message.id = (getChannelMessages editDemoState c).map
        Message.id) ∧
     (∃ c', ∃ m' ∈ getChannelMessages
         (handleEvent "me" 7 editDemoState (.messageEdit "m-1" "new")) c',
       m'.id = "m-1" ∧ m'.content = "new" ∧ m'.editedAt = some 7) ∧
     handleEvent "me" 7 editDemoState (.messageEdit "zzz" "new") =
       editDemoState) := by
  have hnd : (editDemoState.messageCache.map Prod.fst).Nodup := by
    simp [editDemoState]
  have hhit : ∃ c, ∃ m ∈ getChannelMessages editDemoState c, m.id = "m-1" :=
    ⟨"general", mkMessage "m-1" "old" "general" 5, by decide, rfl⟩
  have hmiss : ∀ c, ∀ m ∈ getChannelMessages editDemoState c,
      m.id ≠ "zzz" := by
    intro c m hm
    have hmem : m ∈ [mkMessage "m-1" "old" "general" 5] :=
      mem_alistGet_singleton "general" c _ m hm
    rw [List.mem_singleton.mp hmem]
    decide
  refine ⟨hnd,
    (C9_edit_replaces_or_noop "me" 7 editDemoState "m-1" "new" hnd).1,
    (C9_edit_replaces_or_noop "me" 7 editDemoState "m-1" "new" hnd).2.2.1
      hhit,
    (C9_edit_replaces_or_noop "me" 7 editDemoState "zzz" "new" hnd).2.2.2
      hmiss⟩

/-! ## C4: the cache appends by delivery; local sends never enter it -/

/-- C4 counterexample: the Message Cache does NOT upsert by message id —
`addMessageToCache` appends unconditionally, so delivering the same
message (id "m-1") via `message:receive` twice leaves TWO cached entries
with id "m-1" where an idempotent upsert-by-id would keep one. -/
theorem C4_counterexample_append_not_upsert :
    (getChannelMessages
      (handleEvent "me" 1
        (handleEvent "me" 0 initialServiceState
          (.messageReceive (mkMessage "m-1" "hi" "general" 0)))
        (.messageReceive (mkMessage "m-1" "hi" "general" 0)))
      "general").countP (fun m => decide (m.id = "m-1")) = 2 := by
  decide

/-- C4 amended: the cache appends rather than upserting by id; the
claim's scenario nevertheless ends with exactly one cached entry carrying
id "m-1" because a local send (`message:send`) is never added to the
cache — `MessageService` registers no `message:send` listener, only the
`message:receive` delivery of the server echo inserts. -/
theorem C4_amended_send_never_cached (uid : String) (t t' : Nat)
    (om : OutgoingMessage) :
    handleEvent uid t initialServiceState (.messageSend om) =
      initialServiceState ∧
    getChannelMessages
      (handleEvent uid t'
        (handleEvent uid t initialServiceState (.messageSend om))
        (.messageReceive (mkMessage "m-1" "hi" "general" 1)))
      "general" = [mkMessage "m-1" "hi" "general" 1] ∧
    (getChannelMessages
      (handleEvent uid t'
        (handleEvent uid t initialServiceState (.messageSend om))
        (.messageReceive (mkMessage "m-1" "hi" "general" 1)))
      "general").countP (fun m => decide (m.id = "m-1")) = 1 := by
  refine ⟨rfl, ?_, ?_⟩
  · show getChannelMessages
      (addMessageToCache initialServiceState
        (mkMessage "m-1" "hi" "general" 1)) "general" = _
    decide
  · show (getChannelMessages
      (addMessageToCache initialServiceState
        (mkMessage "m-1" "hi" "general" 1)) "general").countP
        (fun m => decide (m.id = "m-1")) = 1
    decide

/-! ## C10: read accessors are total and empty on untouched channels -/

theorem removeTypingUser_messageCache (s : MessageServiceState)
    (c' u' : String) :
    (removeTypingUser s c' u').messageCache = s.messageCache := by
  unfold removeTypingUser
  cases alistGet s.typingUsers c' <;> rfl

theorem removeTypingUser_get_none (s : MessageServiceState)
    (c' u' c : String) (h : alistGet s.typingUsers c = none) :
    alistGet (removeTypingUser s c' u').typingUsers c = none := by
  unfold removeTypingUser
  cases hget : alistGet s.typingUsers c' with
  | none => exact h
  | some typingSet =>
    by_cases hc : c = c'
    · subst hc
      rw [hget] at h
      simp at h
    · show alistGet (alistSet s.typingUsers c' (setDelete typingSet u')) c
        = none
      rw [alistGet_set_ne _ _ _ _ hc]
      exact h

theorem foldl_removeTypingUser_untouched
    (l : List (Nat × String × String)) (s : MessageServiceState)
    (c : String) (h1 : alistGet s.messageCache c = none)
    (h2 : alistGet s.typingUsers c = none) :
    alistGet (l.foldl (fun st p => removeTypingUser st p.2.1 p.2.2)
      s).messageCache c = none ∧
    alistGet (l.foldl (fun st p => removeTypingUser st p.2.1 p.2.2)
      s).typingUsers c = none := by
  induction l generalizing s with
  | nil => exact ⟨h1, h2⟩
  | cons p rest ih =>
    simp only [List.foldl_cons]
    refine ih (removeTypingUser s p.2.1 p.2.2) ?_ ?_
    · rw [removeTypingUser_messageCache]
      exact h1
    · exact removeTypingUser_get_none s p.2.1 p.2.2 c h2

theorem fireDueTimers_untouched (s : MessageServiceState) (t : Nat)
    (c : String) (h1 : alistGet s.messageCache c = none)
    (h2 : alistGet s.typingUsers c = none) :
    alistGet (fireDueTimers s t).messageCache c = none ∧
    alistGet (fireDueTimers s t).typingUsers c = none := by
  unfold fireDueTimers
  exact foldl_removeTypingUser_untouched _ _ c h1 h2

theorem handleEvent_untouched (uid : String) (now : Nat)
    (s : MessageServiceState) (e : ChatEvent) (c : String)
    (he : eventTouchesChannel c e = false)
    (h1 : alistGet s.messageCache c = none)
    (h2 : alistGet s.typingUsers c = none) :
    alistGet (handleEvent uid now s e).messageCache c = none ∧
    alistGet (handleEvent uid now s e).typingUsers c = none := by
  cases e with
  | messageSend om => exact ⟨h1, h2⟩
  | messageReceive m =>
    have hne : c ≠ m.channelId := by
      intro hc
      rw [show eventTouchesChannel c (.messageReceive m) =
        decide (m.channelId = c) from rfl] at he
      exact absurd hc.symm (of_decide_eq_false he)
    refine ⟨?_, h2⟩
    show alistGet (alistSet s.messageCache m.channelId _) c = none
    rw [alistGet_set_ne _ _ _ _ hne]
    exact h1
  | messageEdit mid content =>
    refine ⟨?_, h2⟩
    show alistGet (updateChannels s.messageCache mid content now) c = none
    rcases alistGet_updateChannels s.messageCache mid content now c with
      h | ⟨msgs, _, hsome, _, _⟩
    · rw [h]; exact h1
    · rw [hsome] at h1; simp at h1
  | messageDelete mid cid =>
    have hne : c ≠ cid := by
      intro hc
      rw [show eventTouchesChannel c (.messageDelete mid cid) =
        decide (cid = c) from rfl] at he
      exact absurd hc.symm (of_decide_eq_false he)
    constructor
    · show alistGet (removeMessageFromCache s cid mid).messageCache c = none
      unfold removeMessageFromCache
      cases alistGet s.messageCache cid with
      | none => exact h1
      | some messages =>
        show alistGet (alistSet s.messageCache cid _) c = none
        rw [alistGet_set_ne _ _ _ _ hne]
        exact h1
    · show alistGet (removeMessageFromCache s cid mid).typingUsers c = none
      unfold removeMessageFromCache
      cases alistGet s.messageCache cid with
      | none => exact h2
      | some messages => exact h2
  | typingStart u cid =>
    have hne : c ≠ cid := by
      intro hc
      rw [show eventTouchesChannel c (.typingStart u cid) =
        decide (cid = c) from rfl] at he
      exact absurd hc.symm (of_decide_eq_false he)
    have heq : handleEvent uid now s (.typingStart u cid) =
        if u ≠ uid then addTypingUser s now cid u else s := rfl
    rw [heq]
    by_cases hu : u ≠ uid
    · rw [if_pos hu]
      refine ⟨h1, ?_⟩
      show alistGet (alistSet s.typingUsers cid
        (setAdd ((alistGet s.typingUsers cid).getD []) u)) c = none
      rw [alistGet_set_ne _ _ _ _ hne]
      exact h2
    · rw [if_neg hu]
      exact ⟨h1, h2⟩

  | typingStop u cid =>
    refine ⟨?_, removeTypingUser_get_none s cid u c h2⟩
    show alistGet (removeTypingUser s cid u).messageCache c = none
    rw [removeTypingUser_messageCache]
    exact h1

theorem runEvents_untouched (uid : String)
    (trace : List (Nat × ChatEvent)) (s : MessageServiceState) (c : String) :
    (∀ te ∈ trace, eventTouchesChannel c te.2 = false) →
    alistGet s.messageCache c = none →
    alistGet s.typingUsers c = none →
    alistGet (runEvents uid trace s).messageCache c = none ∧
    alistGet (runEvents uid trace s).typingUsers c = none := by
  induction trace generalizing s with
  | nil => exact fun _ h1 h2 => ⟨h1, h2⟩
  | cons te rest ih =>
    intro h h1 h2
    simp only [runEvents, List.foldl_cons]
    have hf := fireDueTimers_untouched s te.1 c h1 h2
    have hh := handleEvent_untouched uid te.1 (fireDueTimers s te.1) te.2 c
      (h te (List.mem_cons_self _ _)) hf.1 hf.2
    exact ih (stepTimed uid s te)
      (fun te' hte' => h te' (List.mem_cons_of_mem _ hte')) hh.1 hh.2

/-- C10: the read accessors are total at the public interface — for a
channel no event of the trace ever touched (no message cached, no typing
entry added), `getChannelMessages` returns the empty list and
`getTypingUsers` returns the empty set, at any observation time; both are
total functions — no null, no exception. -/
theorem C10_accessors_total_on_fresh_channel (uid : String)
    (trace : List (Nat × ChatEvent)) (c : String) (T : Nat)
    (h : ∀ te ∈ trace, eventTouchesChannel c te.2 = false) :
    getChannelMessages (runEvents uid trace initialServiceState) c = [] ∧
    getTypingUsers (runEvents uid trace initialServiceState) c = [] ∧
    observeTyping uid trace T c = [] := by
  have hrun := runEvents_untouched uid trace initialServiceState c h rfl rfl
  have hfire := fireDueTimers_untouched
    (runEvents uid trace initialServiceState) T c hrun.1 hrun.2
  refine ⟨?_, ?_, ?_⟩
  · show (alistGet (runEvents uid trace initialServiceState).messageCache
      c).getD [] = []
    rw [hrun.1]
    rfl
  · show getTypingUsers (runEvents uid trace initialServiceState) c = []
    unfold getTypingUsers
    rw [hrun.2]
  · show getTypingUsers
      (fireDueTimers (runEvents uid trace initialServiceState) T) c = []
    unfold getTypingUsers
    rw [hfire.2]

theorem C10_accessors_total_on_fresh_channel_witness :
    (∀ te ∈ [((0 : Nat), ChatEvent.messageReceive
        (mkMessage "1" "x" "other" 0)),
      (1, ChatEvent.typingStart "bob" "other")],
      eventTouchesChannel "general" te.2 = false) ∧
    (getChannelMessages (runEvents "me"
      [((0 : Nat), ChatEvent.messageReceive (mkMessage "1" "x" "other" 0)),
       (1, ChatEvent.typingStart "bob" "other")]
      initialServiceState) "general" = [] ∧
     getTypingUsers (runEvents "me"
      [((0 : Nat), ChatEvent.messageReceive (mkMessage "1" "x" "other" 0)),
       (1, ChatEvent.typingStart "bob" "other")]
      initialServiceState) "general" = [] ∧
     observeTyping "me"
      [((0 : Nat), ChatEvent.messageReceive (mkMessage "1" "x" "other" 0)),
       (1, ChatEvent.typingStart "bob" "other")]
      5000 "general" = []) :=
  ⟨by decide,
   C10_accessors_total_on_fresh_channel "me"
     [((0 : Nat), ChatEvent.messageReceive (mkMessage "1" "x" "other" 0)),
      (1, ChatEvent.typingStart "bob" "other")]
     "general" 5000 (by decide)⟩

end Chat
